import Mathlib

/-
Verification of the credit-scoring service (FastAPI serving layer in
src/main.py and the training/preprocessing pipeline in src/script/script.py)
against its natural-language specification.

Shallow embedding conventions:
* A pandas single-row DataFrame is modelled as an ordered association list
  of (column name, cell value) pairs (`Row`).  Cell values are either
  rationals (Python ints/floats; floats are modelled exactly as rationals)
  or strings (categorical codes).
* Fallible Python code (raising exceptions) is modelled with
  `Except String`; the string carries the exception / HTTP detail message.
* The loaded ML artifact is opaque to the serving layer: it is modelled as
  a record of its `predict` / `predict_proba` operations.
* The filesystem and the three deserialization libraries are modelled as
  an environment record `FS` of pure functions; `os.path` string
  operations (`join`, `dirname`) are implemented faithfully.
-/

namespace CreditScore

/-- A cell value of a DataFrame: a number (Python int/float, modelled as a
rational) or a categorical string code. -/
inductive Val where
  | num (q : ℚ)
  | str (s : String)
deriving DecidableEq, Repr

/-- One row of a DataFrame: an ordered association list from column names to
cell values (pandas keeps columns ordered). -/
abbrev Row := List (String × Val)

/-- Value of column `c` in row `r` (first occurrence), `none` if the column
is absent. -/
def lookupVal : Row → String → Option Val
  | [], _ => none
  | (c, v) :: r, c0 => if c = c0 then some v else lookupVal r c0

/-- `c in df.columns` for a single-row frame. -/
def hasCol (r : Row) (c : String) : Bool :=
  r.any (fun p => p.1 == c)

/-! ### Feature configuration and ordinal mappings (script.py lines 19-93) -/

def numerical_features : List String :=
  ["Duration in month",
   "Credit amount",
   "Installment rate in percentage of disposable income",
   "Age in years",
   "Number of existing credits at this bank",
   "Number of people being liable to provide maintenance for"]

def ordinal_categorical_features : List String :=
  ["Status of existing checking account",
   "Credit history",
   "Savings account/bonds",
   "Present employment since",
   "Job"]

def nominal_categorical_features : List String :=
  ["Purpose",
   "Personal status and sex",
   "Other debtors / guarantors",
   "Property",
   "Other installment plans",
   "Housing",
   "Telephone",
   "foreign worker"]

def status_mapping : List (String × Int) :=
  [("A11", 0), ("A12", 1), ("A13", 2), ("A14", 3)]

def credit_history_mapping : List (String × Int) :=
  [("A30", 0), ("A31", 1), ("A32", 2), ("A33", 3), ("A34", 4)]

def savings_mapping : List (String × Int) :=
  [("A61", 0), ("A62", 1), ("A63", 2), ("A64", 3), ("A65", 4)]

def employment_mapping : List (String × Int) :=
  [("A71", 0), ("A72", 1), ("A73", 2), ("A74", 3), ("A75", 4)]

def job_mapping : List (String × Int) :=
  [("A171", 0), ("A172", 1), ("A173", 2), ("A174", 3)]

def ALL_MAPPINGS : List (String × List (String × Int)) :=
  [("Status of existing checking account", status_mapping),
   ("Credit history", credit_history_mapping),
   ("Savings account/bonds", savings_mapping),
   ("Present employment since", employment_mapping),
   ("Job", job_mapping)]

/-- Dictionary lookup in an ordinal mapping. -/
def assocFind : List (String × Int) → String → Option Int
  | [], _ => none
  | (k, v) :: m, s => if k = s then some v else assocFind m s

/-- `series.map(mapping)` followed by `fillna(-1)` on one cell: a string code
is replaced by its rank if present in the mapping, otherwise by the sentinel
-1 (a non-string cell is not a dict key, hence also becomes NaN then -1). -/
def mapCode (m : List (String × Int)) : Val → Val
  | .str s =>
      match assocFind m s with
      | some k => .num (k : ℚ)
      | none => .num (-1)
  | .num _ => .num (-1)

/-- `df[col] = df[col].map(mapping); df[col] = df[col].fillna(-1)` guarded by
`if col in df.columns` (script.py lines 100-106 and 178-182). -/
def applyOneMapping (mp : List (String × Int)) (c : String) (r : Row) : Row :=
  if hasCol r c then
    r.map (fun p => if p.1 = c then (p.1, mapCode mp p.2) else p)
  else r

/-- The loop `for col, mapping in mappings.items()` applying each ordinal
mapping in turn (script.py apply_ordinal_mappings, lines 97-107, and step 1 of
CustomPreprocessor._apply_mappings_and_encoding, lines 178-182: identical
logic). -/
def applyOrdinalMappings (ms : List (String × List (String × Int))) (r : Row) : Row :=
  ms.foldl (fun acc cm => applyOneMapping cm.2 cm.1 acc) r

/-- Top-level script.py function `apply_ordinal_mappings` (always iterates the
global ALL_MAPPINGS). -/
def apply_ordinal_mappings (r : Row) : Row :=
  applyOrdinalMappings ALL_MAPPINGS r

/-- `pd.get_dummies(X, columns=cols_to_encode, drop_first=True)` on a
SINGLE-ROW frame (the serving path): each nominal column present holds exactly
one level, whose single indicator column is dropped by drop_first, so the net
effect is removing the encoded columns and appending nothing
(script.py lines 184-187). -/
def dropNominals (nom : List String) (r : Row) : Row :=
  r.filter (fun p => !(nom.contains p.1))

/-- State of the fitted CustomPreprocessor (script.py lines 129-189).  The
fitted StandardScaler is modelled as a per-column affine map on numeric cells
(its means/scales fixed at fit time); `feature_names_` is `none` before fit
and `some fn` after fit recorded the processed training columns. -/
structure CustomPreprocessor where
  numericalFeatures : List String
  ordinalFeatures : List String
  nominalFeatures : List String
  mappings : List (String × List (String × Int))
  scaler : String → ℚ → ℚ
  feature_names_ : Option (List String)

/-- Apply the fitted scaler to one cell of a numeric column. -/
def scaleVal (f : ℚ → ℚ) : Val → Val
  | .num q => .num (f q)
  | .str s => .str s

/-- `X_processed[num_cols] = self.scaler.transform(X_processed[num_cols])`
where `num_cols = [col for col in X_processed.columns if col in
self.numerical_features]` (script.py lines 155-157): standardize numeric
columns in place, leaving names and order untouched. -/
def scaleRow (pp : CustomPreprocessor) (r : Row) : Row :=
  r.map (fun p =>
    if pp.numericalFeatures.contains p.1 then (p.1, scaleVal (pp.scaler p.1) p.2) else p)

/-- `CustomPreprocessor._apply_mappings_and_encoding` (script.py lines
173-189): ordinal mappings, then one-hot encoding of nominal columns. -/
def apply_mappings_and_encoding (pp : CustomPreprocessor) (r : Row) : Row :=
  dropNominals pp.nominalFeatures (applyOrdinalMappings pp.mappings r)

/-- The loop `for col in self.feature_names_: if col not in
X_processed.columns: X_processed[col] = 0` (script.py lines 162-164): append a
zero-valued column for every reference column that is absent. -/
def addMissing (r : Row) (fn : List String) : Row :=
  fn.foldl (fun acc c => if hasCol acc c then acc else acc ++ [(c, Val.num 0)]) r

/-- `X_processed = X_processed[self.feature_names_]` (script.py line 165):
select the reference columns, in reference order.  After `addMissing` every
reference column is present, so the `getD` default is never exercised. -/
def selectCols (fn : List String) (r : Row) : Row :=
  fn.map (fun c => (c, (lookupVal r c).getD (Val.num 0)))

/-- Schema reconciliation (script.py lines 160-165): zero-fill missing
reference columns, then reorder/drop to match the reference column list. -/
def reconcile (fn : List String) (r : Row) : Row :=
  selectCols fn (addMissing r fn)

/-- `CustomPreprocessor.transform` (script.py lines 150-167): encode, scale
the numeric columns, then — when `self.feature_names_` is truthy (a fitted,
non-empty list) — reconcile the columns to the recorded reference order. -/
def transform (pp : CustomPreprocessor) (r : Row) : Row :=
  let x := scaleRow pp (apply_mappings_and_encoding pp r)
  match pp.feature_names_ with
  | none => x
  | some fn => if fn.isEmpty then x else reconcile fn x

/-! ### The serving layer (src/main.py) -/

/-- A loaded ML artifact, opaque to the serving layer: its two operations as
exposed to the cache and the prediction service.  `predict` returns the
predictions array, `predictProba` the per-row probability arrays (so the
Python indexing `[0]`, `[1]` is modelled explicitly where the source does
it). -/
structure MLModel where
  predict : Row → Except String (List Int)
  predictProba : Row → Except String (List (List ℚ))

/-- What `os.path.exists/isfile/isdir` report about one path. -/
inductive FKind where
  | absent
  | file
  | dir
  | other
deriving DecidableEq, Repr

/-- Environment of the artifact resolver: the filesystem and the three
deserialization libraries (`mlflow.sklearn.load_model`, `joblib.load`,
`pickle.load`), each a pure function from a path to a loaded model or an
error message. -/
structure FS where
  kind : String → FKind
  mlflowLoad : String → Except String MLModel
  joblibLoad : String → Except String MLModel
  pickleLoad : String → Except String MLModel

/-- Candidate artifact locations (main.py lines 29-33, MODEL_PATHS). -/
def MODEL_PATHS : List String :=
  ["/app/model/model.pkl", "/app/model", "/app/mlruns"]

/-- `os.path.join(p, q)` for a relative `q` (posix). -/
def joinPath (p q : String) : String :=
  if p = "" then q
  else if p.endsWith "/" then p ++ q
  else p ++ "/" ++ q

/-- `os.path.dirname(p)` (posix): everything up to the last slash, with
trailing slashes stripped unless the head is all slashes. -/
def dirname (p : String) : String :=
  let head := (p.data.reverse.dropWhile (fun c => !(c == '/'))).reverse
  if head.isEmpty then ""
  else if head.all (fun c => c == '/') then String.mk head
  else String.mk ((head.reverse.dropWhile (fun c => c == '/')).reverse)

/-- A single-quote character, as used by Python repr of strings. -/
def sq : String := String.singleton (Char.ofNat 39)

/-- Python `repr` of a string (single-quoted; none of the candidate paths
needs escaping). -/
def pyStrRepr (s : String) : String := sq ++ s ++ sq

/-- Python `repr` of a list of strings, as interpolated by an f-string. -/
def pyListRepr (ss : List String) : String :=
  "[" ++ String.intercalate ", " (ss.map pyStrRepr) ++ "]"

/-- The FileNotFoundError message of find_model_file (main.py line 269):
f-string interpolation of the global MODEL_PATHS list. -/
def noModelFoundMsg : String :=
  "Aucun modèle trouvé dans: " ++ pyListRepr MODEL_PATHS

/-- What one candidate location yields (main.py lines 250-267): a regular
file is accepted as-is; a directory yields the `model.pkl` inside it if that
exists, else the directory itself if it contains an `MLmodel` marker file;
anything else yields nothing and the scan continues. -/
def tryCandidate (fs : FS) (p : String) : Option String :=
  match fs.kind p with
  | .file => some p
  | .dir =>
      if fs.kind (joinPath p "model.pkl") ≠ FKind.absent then some (joinPath p "model.pkl")
      else if fs.kind (joinPath p "MLmodel") ≠ FKind.absent then some p
      else none
  | _ => none

/-- The `for path in MODEL_PATHS` scan of find_model_file: first candidate
that yields a result wins; exhaustion raises FileNotFoundError naming all
candidate locations. -/
def findIn (fs : FS) : List String → Except String String
  | [] => .error noModelFoundMsg
  | p :: ps =>
      match tryCandidate fs p with
      | some r => .ok r
      | none => findIn fs ps

/-- `ModelCache.find_model_file` (main.py lines 247-269). -/
def find_model_file (fs : FS) : Except String String :=
  findIn fs MODEL_PATHS

/-- Loading strategies of load_model_from_file, in source order. -/
inductive Strategy where
  | mlflow
  | joblib
  | pickle
deriving DecidableEq, Repr

/-- The string recorded in `self.load_method` by each strategy. -/
def Strategy.methodName : Strategy → String
  | .mlflow => "mlflow"
  | .joblib => "joblib"
  | .pickle => "pickle"

/-- Condition guarding the MLflow strategy (main.py lines 284-285): the
candidate is a directory, or it sits in a directory containing an `MLmodel`
marker. -/
def mlflowCond (fs : FS) (p : String) : Bool :=
  fs.kind p = FKind.dir ∨
    (fs.kind (dirname p) = FKind.dir ∧ fs.kind (joinPath (dirname p) "MLmodel") ≠ FKind.absent)

/-- The path handed to `mlflow.sklearn.load_model` (main.py line 287). -/
def mlflowLoadPath (fs : FS) (p : String) : String :=
  if fs.kind p = FKind.dir then p else dirname p

/-- The three sequential guarded strategy attempts of load_model_from_file
(main.py lines 280-323), with the `loaded` flag and `errors` accumulator.
Returns (attempted strategies in order, accumulated error strings, first
success with its strategy). -/
def tryStrategies (fs : FS) (p : String) :
    List Strategy × List String × Option (MLModel × Strategy) :=
  let s1 : List Strategy × List String × Option (MLModel × Strategy) :=
    if mlflowCond fs p then
      match fs.mlflowLoad (mlflowLoadPath fs p) with
      | .ok m => ([.mlflow], [], some (m, .mlflow))
      | .error e1 => ([.mlflow], ["MLflow: " ++ e1], none)
    else ([], [], none)
  match s1 with
  | (t1, e1, some res) => (t1, e1, some res)
  | (t1, e1, none) =>
      if fs.kind p = FKind.file then
        match fs.joblibLoad p with
        | .ok m => (t1 ++ [.joblib], e1, some (m, .joblib))
        | .error e2 =>
            match fs.pickleLoad p with
            | .ok m => (t1 ++ [.joblib, .pickle], e1 ++ ["Joblib: " ++ e2], some (m, .pickle))
            | .error e3 =>
                (t1 ++ [.joblib, .pickle],
                 (e1 ++ ["Joblib: " ++ e2]) ++ ["Pickle: " ++ e3], none)
      else (t1, e1, none)

/-- `" | ".join(errors)` (main.py line 326). -/
def joinSep (sep : String) : List String → String
  | [] => ""
  | [x] => x
  | x :: y :: xs => x ++ sep ++ joinSep sep (y :: xs)

/-- The fixed test row of `ModelCache._test_model` (main.py lines 353-374). -/
def sampleRow : Row :=
  [("Duration in month", Val.num 12),
   ("Credit amount", Val.num 5000),
   ("Installment rate in percentage of disposable income", Val.num 2),
   ("Age in years", Val.num 35),
   ("Number of existing credits at this bank", Val.num 1),
   ("Number of people being liable to provide maintenance for", Val.num 1),
   ("Status of existing checking account", Val.str "A12"),
   ("Credit history", Val.str "A32"),
   ("Savings account/bonds", Val.str "A61"),
   ("Present employment since", Val.str "A73"),
   ("Job", Val.str "A173"),
   ("Purpose", Val.str "A43"),
   ("Personal status and sex", Val.str "A93"),
   ("Other debtors / guarantors", Val.str "A101"),
   ("Property", Val.str "A121"),
   ("Other installment plans", Val.str "A143"),
   ("Housing", Val.str "A152"),
   ("Telephone", Val.str "A192"),
   ("foreign worker", Val.str "A201")]

/-- `ModelCache._test_model` (main.py lines 349-388): call predict and
predict_proba on the fixed sample row; propagate either exception.  Note: the
results are only logged — no shape check is performed. -/
def testModel (m : MLModel) : Except String Unit :=
  match m.predict sampleRow with
  | .error e => .error e
  | .ok _ =>
      match m.predictProba sampleRow with
      | .error e => .error e
      | .ok _ => .ok ()

/-- Mutable state of the ModelCache instance (main.py lines 241-245). -/
structure ModelCache where
  model : Option MLModel
  model_path : Option String
  model_version : String
  load_method : Option String

/-- `ModelCache.__init__` (main.py lines 241-245). -/
def ModelCache.init : ModelCache :=
  { model := none, model_path := none, model_version := "local-docker", load_method := none }

/-- Prefix of the HTTPException detail wrapping any load failure
(main.py lines 344-347). -/
def loadFailPrefix : String := "Impossible de charger le modèle: "

/-- `ModelCache.load_model_from_file` (main.py lines 271-347) as a state
transformer: find a candidate path; skip reloading when the path is
unchanged; otherwise run the strategy chain, raise the aggregate error when
every attempted strategy failed, and on a strategy success assign
`self.model`, `self.load_method` and `self.model_path` BEFORE running the
smoke test, so a smoke-test failure leaves the freshly loaded model cached
while the wrapped test error propagates. -/
def load_model_from_file (fs : FS) (st : ModelCache) :
    ModelCache × Except String (Option MLModel) :=
  match find_model_file fs with
  | .error e => (st, .error (loadFailPrefix ++ e))
  | .ok p =>
      if st.model_path = some p then (st, .ok st.model)
      else
        match tryStrategies fs p with
        | (_, errs, none) =>
            (st, .error (loadFailPrefix ++ ("Toutes les méthodes ont échoué: " ++
              joinSep " | " errs)))
        | (_, _, some (m, strat)) =>
            let st1 : ModelCache :=
              { st with model := some m, load_method := some strat.methodName,
                        model_path := some p }
            match testModel m with
            | .error te => (st1, .error (loadFailPrefix ++ te))
            | .ok _ => (st1, .ok (some m))

/-- `ModelCache.get_model` (main.py lines 390-394): resolve lazily when no
model is cached, then return `(self.model, self.model_version)`. -/
def get_model (fs : FS) (st : ModelCache) :
    ModelCache × Except String (Option MLModel × String) :=
  match st.model with
  | some m => (st, .ok (some m, st.model_version))
  | none =>
      match load_model_from_file fs st with
      | (st1, .error e) => (st1, .error e)
      | (st1, .ok _) => (st1, .ok (st1.model, st1.model_version))

/-- The `/api/reload-model` endpoint body (main.py lines 633-653): clear
`self.model` and `self.model_path`, then `get_model`. -/
def reload_model (fs : FS) (st : ModelCache) :
    ModelCache × Except String (Option MLModel × String) :=
  get_model fs { st with model := none, model_path := none }

/-! ### Prediction service (main.py lines 402-476 and 580-621) -/

/-- `calculate_risk_level` (main.py lines 402-409); the float thresholds 0.7
and 0.4 are modelled as the exact rationals 7/10 and 2/5. -/
def calculate_risk_level (probability : ℚ) : String :=
  if probability ≥ 7/10 then "LOW"
  else if probability ≥ 2/5 then "MEDIUM"
  else "HIGH"

/-- The result dict built by make_prediction (timestamps and Prometheus
counters, being pure observability, are not modelled). -/
structure PredResult where
  prediction : Int
  probability_good_credit : ℚ
  probability_bad_credit : ℚ
  risk_level : String
deriving DecidableEq, Repr

/-- Prefix of the HTTPException detail raised by make_prediction
(main.py lines 473-476). -/
def predFailPrefix : String := "Erreur lors de la prédiction: "

/-- `make_prediction` (main.py lines 412-476): `model.predict(df)[0]`,
`model.predict_proba(df)[0]`, probabilities `[1]`/`[0]`, risk level; any
exception (including the IndexErrors of the `[...]` accesses, whose Python
messages are abbreviated here) is wrapped into the prediction HTTPException. -/
def make_prediction (m : MLModel) (r : Row) : Except String PredResult :=
  match m.predict r with
  | .error e => .error (predFailPrefix ++ e)
  | .ok preds =>
      match preds.get? 0 with
      | none => .error (predFailPrefix ++ "index 0 is out of bounds")
      | some pred =>
          match m.predictProba r with
          | .error e => .error (predFailPrefix ++ e)
          | .ok probas =>
              match probas.get? 0 with
              | none => .error (predFailPrefix ++ "index 0 is out of bounds")
              | some probs =>
                  match probs.get? 1, probs.get? 0 with
                  | some pg, some pb =>
                      .ok ⟨pred, pg, pb, calculate_risk_level pg⟩
                  | _, _ => .error (predFailPrefix ++ "index out of bounds")

/-- The per-row loop of predict_batch (main.py lines 599-610): predictions
are appended in input order; the first row failure (an HTTPException from
make_prediction) aborts the batch and is re-raised unchanged. -/
def predictRows (m : MLModel) : List Row → Except String (List PredResult)
  | [] => .ok []
  | r :: rs =>
      match make_prediction m r with
      | .error e => .error e
      | .ok res =>
          match predictRows m rs with
          | .error e => .error e
          | .ok rest => .ok (res :: rest)

/-- BatchPredictionResponse (main.py lines 214-219; timestamp not
modelled). -/
structure BatchResponse where
  predictions : List PredResult
  total_processed : Nat
  model_version : String
deriving DecidableEq, Repr

/-- The `/api/predict-batch` endpoint body (main.py lines 580-630): get the
model, predict every application row in order, and assemble the response with
`total_processed = len(predictions_list)`.  A missing model raises an
AttributeError wrapped by the generic handler. -/
def predict_batch (fs : FS) (st : ModelCache) (apps : List Row) :
    ModelCache × Except String BatchResponse :=
  match get_model fs st with
  | (st1, .error e) => (st1, .error e)
  | (st1, .ok (mo, version)) =>
      match mo with
      | none => (st1, .error "Erreur lors du batch: NoneType has no attribute predict")
      | some m =>
          match predictRows m apps with
          | .error e => (st1, .error e)
          | .ok results => (st1, .ok ⟨results, results.length, version⟩)

/-! ### Auxiliary definitions used by the theorems and their witnesses -/

/-- The encoded, scaled row before schema reconciliation (the value
`X_processed` holds at script.py line 158). -/
def encodedRow (pp : CustomPreprocessor) (r : Row) : Row :=
  scaleRow pp (apply_mappings_and_encoding pp r)

/-- `sub` occurs as a contiguous substring of `s`. -/
def containsSub (sub s : String) : Prop :=
  ∃ a b, s = a ++ sub ++ b

/-- Concrete fitted preprocessor over a miniature schema (one numeric, one
ordinal, one nominal column; fitted reference columns ["n", "o", "m_B"]),
used by witnesses. -/
def ppW : CustomPreprocessor :=
  { numericalFeatures := ["n"], ordinalFeatures := ["o"], nominalFeatures := ["m"],
    mappings := [("o", [("A", 1)])], scaler := fun _ q => q,
    feature_names_ := some ["n", "o", "m_B"] }

/-- Concrete raw row for the miniature schema. -/
def rowW : Row := [("n", Val.num 2), ("o", Val.str "A"), ("m", Val.str "B")]

/-- An environment with no candidate artifact at all. -/
def fsEmpty : FS :=
  { kind := fun _ => FKind.absent,
    mlflowLoad := fun _ => .error "no file",
    joblibLoad := fun _ => .error "no file",
    pickleLoad := fun _ => .error "no file" }

/-- A model whose predict raises (fails the smoke test). -/
def brokenModel : MLModel :=
  { predict := fun _ => .error "boom",
    predictProba := fun _ => .ok [[1/2, 1/2]] }

/-- Environment in which the first candidate is a regular file that joblib
deserializes into `brokenModel`. -/
def fsBroken : FS :=
  { kind := fun s => if s = "/app/model/model.pkl" then FKind.file else FKind.absent,
    mlflowLoad := fun _ => .error "mlflow fail",
    joblibLoad := fun _ => .ok brokenModel,
    pickleLoad := fun _ => .error "pickle fail" }

/-- A model that never raises but returns a shape inconsistent with a binary
classifier (an empty probability row). -/
def shapeModel : MLModel :=
  { predict := fun _ => .ok [1],
    predictProba := fun _ => .ok [[]] }

/-- Environment whose only candidate loads `shapeModel` via joblib. -/
def fsShape : FS :=
  { kind := fun s => if s = "/app/model/model.pkl" then FKind.file else FKind.absent,
    mlflowLoad := fun _ => .error "mlflow fail",
    joblibLoad := fun _ => .ok shapeModel,
    pickleLoad := fun _ => .error "pickle fail" }

/-- A well-behaved binary classifier used by witnesses. -/
def goodModel : MLModel :=
  { predict := fun _ => .ok [1],
    predictProba := fun _ => .ok [[3/10, 7/10]] }

/-- Environment whose only candidate is a regular file that joblib
deserializes into `goodModel`. -/
def fsOk : FS :=
  { kind := fun s => if s = "/app/model/model.pkl" then FKind.file else FKind.absent,
    mlflowLoad := fun _ => .error "mlflow fail",
    joblibLoad := fun _ => .ok goodModel,
    pickleLoad := fun _ => .error "pickle fail" }

/-- Environment where every candidate location exists as a corrupt regular
file: every deserialization strategy fails. -/
def fsCorrupt : FS :=
  { kind := fun s => if s = "/app/model/model.pkl" then FKind.file else FKind.absent,
    mlflowLoad := fun _ => .error "not an MLmodel dir",
    joblibLoad := fun _ => .error "corrupt joblib stream",
    pickleLoad := fun _ => .error "corrupt pickle stream" }

/-- The cache state reached after the successful resolution in `fsOk`. -/
def stOk : ModelCache :=
  { model := some goodModel, model_path := some "/app/model/model.pkl",
    model_version := "local-docker", load_method := some "joblib" }

/-- One serving-layer operation touching the cache, together with the
environment it runs against (main.py lines 390-394, 271-347, 633-653). -/
inductive CacheOp where
  | getOp (fs : FS)
  | loadOp (fs : FS)
  | reloadOp (fs : FS)

/-- State reached after one cache operation. -/
def applyOp (st : ModelCache) : CacheOp → ModelCache
  | .getOp fs => (get_model fs st).1
  | .loadOp fs => (load_model_from_file fs st).1
  | .reloadOp fs => (reload_model fs st).1

/-- State reached from a fresh ModelCache after a sequence of operations. -/
def runOps (ops : List CacheOp) : ModelCache :=
  ops.foldl applyOp ModelCache.init

/-! ### Helper lemmas on rows -/

theorem lookupVal_eq_none_iff (r : Row) (c : String) :
    lookupVal r c = none ↔ hasCol r c = false := by
  induction r with
  | nil => simp [lookupVal, hasCol]
  | cons p r ih =>
      obtain ⟨k, v⟩ := p
      by_cases hk : k = c
      · simp [lookupVal, hasCol, hk]
      · simp only [lookupVal, hasCol, List.any_cons] at ih ⊢
        simp [hk, ih]

theorem lookupVal_append_left (a b : Row) (c : String) (v : Val)
    (h : lookupVal a c = some v) : lookupVal (a ++ b) c = some v := by
  induction a with
  | nil => simp [lookupVal] at h
  | cons p a ih =>
      obtain ⟨k, w⟩ := p
      by_cases hk : k = c
      · simp [lookupVal, hk] at h ⊢; exact h
      · simp [lookupVal, hk] at h ⊢; exact ih h

theorem lookupVal_append_right (a b : Row) (c : String)
    (h : lookupVal a c = none) : lookupVal (a ++ b) c = lookupVal b c := by
  induction a with
  | nil => simp
  | cons p a ih =>
      obtain ⟨k, w⟩ := p
      by_cases hk : k = c
      · simp [lookupVal, hk] at h
      · simp [lookupVal, hk] at h ⊢; exact ih h

theorem lookupVal_of_hasCol_const (l : Row) (c : String) (z : Val)
    (h : hasCol l c = true) (hz : ∀ p ∈ l, p.2 = z) : lookupVal l c = some z := by
  induction l with
  | nil => simp [hasCol] at h
  | cons p l ih =>
      obtain ⟨k, w⟩ := p
      by_cases hk : k = c
      · have hw : w = z := hz (k, w) (by simp)
        simp [lookupVal, hk, hw]
      · have hkc : (k == c) = false := by simpa using hk
        have h2 : hasCol l c = true := by
          simp only [hasCol, List.any_cons, hkc, Bool.false_or] at h
          exact h
        have hstep : lookupVal ((k, w) :: l) c = lookupVal l c := by simp [lookupVal, hk]
        rw [hstep]
        exact ih h2 (fun p hp => hz p (List.mem_cons_of_mem _ hp))

theorem hasCol_append (a b : Row) (c : String) :
    hasCol (a ++ b) c = (hasCol a c || hasCol b c) := by
  simp [hasCol]

/-! ### Lemmas about schema reconciliation (addMissing / selectCols) -/

theorem addMissing_spec (fn : List String) :
    ∀ acc : Row, ∃ ext, addMissing acc fn = acc ++ ext ∧ ∀ p ∈ ext, p.2 = Val.num 0 := by
  induction fn with
  | nil => intro acc; exact ⟨[], by simp [addMissing], by simp⟩
  | cons c fn ih =>
      intro acc
      by_cases hc : hasCol acc c
      · obtain ⟨ext, he, hz⟩ := ih acc
        refine ⟨ext, ?_, hz⟩
        simpa [addMissing, hc] using he
      · obtain ⟨ext, he, hz⟩ := ih (acc ++ [(c, Val.num 0)])
        refine ⟨(c, Val.num 0) :: ext, ?_, ?_⟩
        · have : addMissing acc (c :: fn) = addMissing (acc ++ [(c, Val.num 0)]) fn := by
            simp [addMissing, hc]
          rw [this, he, List.append_assoc]
          rfl
        · intro p hp
          rcases List.mem_cons.mp hp with h | h
          · rw [h]
          · exact hz p h

theorem addMissing_hasCol (fn : List String) :
    ∀ (acc : Row) (c : String), c ∈ fn ∨ hasCol acc c = true →
      hasCol (addMissing acc fn) c = true := by
  induction fn with
  | nil =>
      intro acc c h
      rcases h with h | h
      · simp at h
      · simpa [addMissing] using h
  | cons c0 fn ih =>
      intro acc c h
      have hstep : addMissing acc (c0 :: fn) =
          addMissing (if hasCol acc c0 then acc else acc ++ [(c0, Val.num 0)]) fn := by
        simp [addMissing]
      rw [hstep]
      by_cases h0 : hasCol acc c0
      · rw [if_pos h0]
        rcases h with h | h
        · rcases List.mem_cons.mp h with h | h
          · exact ih acc c (Or.inr (h ▸ h0))
          · exact ih acc c (Or.inl h)
        · exact ih acc c (Or.inr h)
      · rw [if_neg h0]
        rcases h with h | h
        · rcases List.mem_cons.mp h with h | h
          · refine ih _ c (Or.inr ?_)
            rw [hasCol_append]
            simp [hasCol, h]
          · exact ih _ c (Or.inl h)
        · refine ih _ c (Or.inr ?_)
          rw [hasCol_append, h]
          rfl

theorem lookupVal_addMissing (r : Row) (fn : List String) (c : String) (hc : c ∈ fn) :
    lookupVal (addMissing r fn) c = some ((lookupVal r c).getD (Val.num 0)) := by
  obtain ⟨ext, he, hz⟩ := addMissing_spec fn r
  cases h : lookupVal r c with
  | some v => rw [he, lookupVal_append_left r ext c v h]; rfl
  | none =>
      rw [he, lookupVal_append_right r ext c h]
      have hall : hasCol (r ++ ext) c = true := by
        rw [← he]; exact addMissing_hasCol fn r c (Or.inl hc)
      have hr : hasCol r c = false := (lookupVal_eq_none_iff r c).mp h
      rw [hasCol_append, hr] at hall
      simp only [Bool.false_or] at hall
      rw [lookupVal_of_hasCol_const ext c (Val.num 0) hall hz]
      rfl

theorem lookupVal_map_graph (fn : List String) (g : String → Val) (c : String) (hc : c ∈ fn) :
    lookupVal (fn.map (fun c0 => (c0, g c0))) c = some (g c) := by
  induction fn with
  | nil => simp at hc
  | cons c0 fn ih =>
      by_cases h0 : c0 = c
      · simp [lookupVal, h0]
      · rcases List.mem_cons.mp hc with h | h
        · exact absurd h.symm h0
        · simp only [List.map_cons, lookupVal, if_neg h0]
          exact ih h

theorem transform_eq_selected (pp : CustomPreprocessor) (fn : List String) (r : Row)
    (h : pp.feature_names_ = some fn) (hne : fn ≠ []) :
    transform pp r = fn.map (fun c => (c, (lookupVal (encodedRow pp r) c).getD (Val.num 0))) := by
  have hempty : fn.isEmpty = false := by
    cases fn with
    | nil => exact absurd rfl hne
    | cons a l => rfl
  unfold transform
  rw [h]
  simp only [hempty, Bool.false_eq_true, if_false]
  unfold reconcile selectCols
  refine List.map_congr_left (fun c hc => ?_)
  rw [lookupVal_addMissing _ fn c hc]
  rfl

/-! ### Lemmas about the ordinal mapping step -/

theorem lookupVal_cons (k : String) (v : Val) (r : Row) (c0 : String) :
    lookupVal ((k, v) :: r) c0 = if k = c0 then some v else lookupVal r c0 := rfl

theorem lookupVal_mapCol (mp : List (String × Int)) (c : String) (r : Row) (c' : String) :
    lookupVal (r.map (fun p => if p.1 = c then (p.1, mapCode mp p.2) else p)) c' =
      if c' = c then (lookupVal r c').map (mapCode mp) else lookupVal r c' := by
  induction r with
  | nil => by_cases h : c' = c <;> simp [lookupVal, h]
  | cons p r ih =>
      obtain ⟨k, v⟩ := p
      simp only [List.map_cons]
      by_cases hk : k = c
      · rw [if_pos (show (k, v).1 = c from hk)]
        by_cases hk' : k = c'
        · have hcc : c' = c := by rw [← hk']; exact hk
          simp [lookupVal_cons, hk', hcc]
        · have hcc : ¬ c' = c := fun h => hk' (hk.trans h.symm)
          simp [lookupVal_cons, hk', hcc, ih]
      · rw [if_neg (show ¬ (k, v).1 = c from hk)]
        by_cases hk' : k = c'
        · have hcc : ¬ c' = c := fun h => hk (by rw [hk']; exact h)
          simp [lookupVal_cons, hk', hcc]
        · simp [lookupVal_cons, hk', ih]

theorem lookupVal_applyOne (mp : List (String × Int)) (c : String) (r : Row) (c' : String) :
    lookupVal (applyOneMapping mp c r) c' =
      if c' = c then (lookupVal r c').map (mapCode mp) else lookupVal r c' := by
  unfold applyOneMapping
  by_cases hc : hasCol r c
  · rw [if_pos hc]
    exact lookupVal_mapCol mp c r c'
  · rw [if_neg hc]
    by_cases h' : c' = c
    · subst h'
      have : lookupVal r c' = none := (lookupVal_eq_none_iff r c').mpr (by simpa using hc)
      simp [this]
    · rw [if_neg h']

theorem lookupVal_applyOrdinal_notmem (ms : List (String × List (String × Int))) :
    ∀ (r : Row) (c : String), (∀ m ∈ ms, m.1 ≠ c) →
      lookupVal (applyOrdinalMappings ms r) c = lookupVal r c := by
  induction ms with
  | nil => intro r c _; rfl
  | cons cm ms ih =>
      intro r c h
      obtain ⟨c0, m0⟩ := cm
      have hstep : applyOrdinalMappings ((c0, m0) :: ms) r =
          applyOrdinalMappings ms (applyOneMapping m0 c0 r) := rfl
      rw [hstep, ih _ c (fun m hm => h m (List.mem_cons_of_mem _ hm)),
        lookupVal_applyOne m0 c0 r c]
      have hne : ¬ c = c0 := fun hemb => (h (c0, m0) (by simp)) hemb.symm
      rw [if_neg hne]

theorem lookupVal_applyOrdinal (ms : List (String × List (String × Int))) :
    ∀ (r : Row) (col : String) (M : List (String × Int)),
      (ms.map Prod.fst).Nodup → (col, M) ∈ ms →
      lookupVal (applyOrdinalMappings ms r) col = (lookupVal r col).map (mapCode M) := by
  induction ms with
  | nil => intro r col M _ hmem; simp at hmem
  | cons cm ms ih =>
      intro r col M hnd hmem
      obtain ⟨c0, m0⟩ := cm
      have hstep : applyOrdinalMappings ((c0, m0) :: ms) r =
          applyOrdinalMappings ms (applyOneMapping m0 c0 r) := rfl
      have hnotin : c0 ∉ ms.map Prod.fst := by
        have := hnd
        simp only [List.map_cons, List.nodup_cons] at this
        exact this.1
      rcases List.mem_cons.mp hmem with heq | hmem'
      · have hcol : col = c0 := congrArg Prod.fst heq
        have hM : M = m0 := congrArg Prod.snd heq
        subst hcol; subst hM
        rw [hstep, lookupVal_applyOrdinal_notmem ms _ col
          (fun m hm hfst => hnotin (hfst ▸ List.mem_map_of_mem Prod.fst hm)),
          lookupVal_applyOne, if_pos rfl]
      · have hne : col ≠ c0 := by
          intro hemb
          exact hnotin (hemb ▸ List.mem_map_of_mem Prod.fst hmem')
        have hnd' : (ms.map Prod.fst).Nodup := by
          simp only [List.map_cons, List.nodup_cons] at hnd
          exact hnd.2
        rw [hstep, ih _ col M hnd' hmem', lookupVal_applyOne, if_neg hne]

/-! ### Claim C1 -/

/-- C1: for every fitted encoder state (feature_names_ recorded at fit time,
a non-empty column list) and every input row, the output of transform has
exactly the columns of feature_names_, in that order: a reference column
absent from the encoded row is inserted with value 0, and an encoded column
not in feature_names_ is dropped (each output entry is looked up in the
encoded row, defaulting to 0, so no other column survives). -/
theorem transform_aligns_to_feature_names (pp : CustomPreprocessor) (fn : List String)
    (r : Row) (h : pp.feature_names_ = some fn) (hne : fn ≠ []) :
    (transform pp r).map Prod.fst = fn ∧
      transform pp r =
        fn.map (fun c => (c, (lookupVal (encodedRow pp r) c).getD (Val.num 0))) := by
  have he := transform_eq_selected pp fn r h hne
  refine ⟨?_, he⟩
  rw [he, List.map_map]
  exact List.map_id fn

/-- Concrete witness for C1: the fitted miniature preprocessor `ppW`; the
one-hot column "m_B" is zero-filled and the raw nominal column "m" is
dropped. -/
theorem transform_aligns_to_feature_names_witness :
    (ppW.feature_names_ = some ["n", "o", "m_B"] ∧ (["n", "o", "m_B"] : List String) ≠ []) ∧
      ((transform ppW rowW).map Prod.fst = ["n", "o", "m_B"] ∧
        transform ppW rowW =
          (["n", "o", "m_B"] : List String).map
            (fun c => (c, (lookupVal (encodedRow ppW rowW) c).getD (Val.num 0)))) :=
  ⟨⟨rfl, by decide⟩,
    transform_aligns_to_feature_names ppW ["n", "o", "m_B"] rowW rfl (by decide)⟩

/-! ### Claim C7 -/

/-- C7: encoding is deterministic and idempotent with respect to schema
reconciliation: for a fitted encoder state, transform applied to the same raw
row yields the identical encoded vector (the embedding of transform is a pure
function, so the two applications coincide definitionally), and re-applying
the schema-reconciliation step to the output of transform changes nothing. -/
theorem transform_deterministic_idempotent (pp : CustomPreprocessor) (fn : List String)
    (r : Row) (h : pp.feature_names_ = some fn) (hne : fn ≠ []) :
    transform pp r = transform pp r ∧
      reconcile fn (transform pp r) = transform pp r := by
  refine ⟨rfl, ?_⟩
  rw [transform_eq_selected pp fn r h hne]
  unfold reconcile selectCols
  refine List.map_congr_left (fun c hc => ?_)
  rw [lookupVal_addMissing _ fn c hc,
    lookupVal_map_graph fn (fun c0 => (lookupVal (encodedRow pp r) c0).getD (Val.num 0)) c hc]
  rfl

theorem transform_deterministic_idempotent_witness :
    (ppW.feature_names_ = some ["n", "o", "m_B"] ∧ (["n", "o", "m_B"] : List String) ≠ []) ∧
      (transform ppW rowW = transform ppW rowW ∧
        reconcile ["n", "o", "m_B"] (transform ppW rowW) = transform ppW rowW) :=
  ⟨⟨rfl, by decide⟩,
    transform_deterministic_idempotent ppW ["n", "o", "m_B"] rowW rfl (by decide)⟩

/-! ### Claim C5 -/

/-- C5: calculate_risk_level returns LOW iff p ≥ 0.70, MEDIUM iff
0.40 ≤ p < 0.70 and HIGH iff p < 0.40; the boundary values 0.70 and 0.40 map
to LOW and MEDIUM respectively. -/
theorem calculate_risk_level_bands (p : ℚ) :
    (calculate_risk_level p = "LOW" ↔ 7/10 ≤ p) ∧
      (calculate_risk_level p = "MEDIUM" ↔ 2/5 ≤ p ∧ p < 7/10) ∧
      (calculate_risk_level p = "HIGH" ↔ p < 2/5) ∧
      calculate_risk_level (7/10) = "LOW" ∧
      calculate_risk_level (2/5) = "MEDIUM" := by
  refine ⟨?_, ?_, ?_, by norm_num [calculate_risk_level], by norm_num [calculate_risk_level]⟩ <;>
    unfold calculate_risk_level <;> split_ifs with h1 h2
  · exact iff_of_true rfl h1
  · exact iff_of_false (by decide) h1
  · exact iff_of_false (by decide) h1
  · exact iff_of_false (by decide) (fun h => absurd h1 (not_le.mpr h.2))
  · exact iff_of_true rfl ⟨h2, not_le.mp h1⟩
  · exact iff_of_false (by decide) (fun h => h2 h.1)
  · exact iff_of_false (by decide)
      (fun h => absurd h1 (not_le.mpr (lt_of_lt_of_le h (by norm_num))))
  · exact iff_of_false (by decide) (not_lt.mpr h2)
  · exact iff_of_true rfl (not_le.mp h2)

/-! ### Claim C6 -/

/-- C6: for every ordinal column with its fixed mapping from ALL_MAPPINGS,
encoding replaces the raw code by its integer rank when the code is in the
mapping vocabulary, and by the sentinel -1 otherwise; the encoding function
is total, so an unknown code never raises. -/
theorem ordinal_unknown_code_sentinel (r : Row) (col : String)
    (M : List (String × Int)) (s : String)
    (hM : (col, M) ∈ ALL_MAPPINGS) (hr : lookupVal r col = some (Val.str s)) :
    lookupVal (apply_ordinal_mappings r) col =
      some (match assocFind M s with
            | some k => Val.num (k : ℚ)
            | none => Val.num (-1)) := by
  unfold apply_ordinal_mappings
  rw [lookupVal_applyOrdinal ALL_MAPPINGS r col M (by decide) hM, hr]
  rfl

/-- Concrete witness for C6: the unknown checking-account code "Z99" encodes
to the sentinel -1. -/
theorem ordinal_unknown_code_sentinel_witness :
    (("Status of existing checking account", status_mapping) ∈ ALL_MAPPINGS ∧
        lookupVal [("Status of existing checking account", Val.str "Z99")]
          "Status of existing checking account" = some (Val.str "Z99")) ∧
      lookupVal (apply_ordinal_mappings [("Status of existing checking account", Val.str "Z99")])
          "Status of existing checking account" = some (Val.num (-1)) :=
  ⟨⟨by decide, rfl⟩,
    ordinal_unknown_code_sentinel [("Status of existing checking account", Val.str "Z99")]
      "Status of existing checking account" status_mapping "Z99" (by decide) rfl⟩

/-! ### Lemmas about the candidate scan (find_model_file) -/

theorem findIn_ok (fs : FS) :
    ∀ (ps : List String) (r : String), findIn fs ps = .ok r →
      ∃ i, ∃ h : i < ps.length, tryCandidate fs (ps.get ⟨i, h⟩) = some r ∧
        ∀ j (hj : j < ps.length), j < i → tryCandidate fs (ps.get ⟨j, hj⟩) = none := by
  intro ps
  induction ps with
  | nil => intro r h; simp [findIn] at h
  | cons p ps ih =>
      intro r h
      cases hc : tryCandidate fs p with
      | some r0 =>
          have hr : r0 = r := by simpa [findIn, hc] using h
          subst hr
          refine ⟨0, by simp, hc, ?_⟩
          intro j hj hji
          omega
      | none =>
          have h2 : findIn fs ps = .ok r := by simpa [findIn, hc] using h
          obtain ⟨i, hi, hti, hearlier⟩ := ih r h2
          refine ⟨i + 1, by simpa using Nat.succ_lt_succ hi, hti, ?_⟩
          intro j hj hji
          cases j with
          | zero => exact hc
          | succ j0 => exact hearlier j0 (by omega) (by omega)

theorem findIn_error (fs : FS) :
    ∀ ps : List String, (∀ p ∈ ps, tryCandidate fs p = none) →
      findIn fs ps = .error noModelFoundMsg := by
  intro ps
  induction ps with
  | nil => intro _; rfl
  | cons p ps ih =>
      intro h
      have hp : tryCandidate fs p = none := h p (by simp)
      have h2 := ih (fun q hq => h q (List.mem_cons_of_mem _ hq))
      simpa [findIn, hp] using h2

/-! ### Claim C4 -/

/-- C4: find_model_file scans MODEL_PATHS in priority order — a regular file
is accepted as-is; a directory is accepted via the model.pkl inside it if
present, otherwise as the directory itself if it contains an MLmodel marker;
the scan stops at the first candidate yielding a result; and when no
candidate yields one, it raises a file-not-found error whose message
enumerates all candidate locations tried. -/
theorem find_model_file_priority_scan (fs : FS) :
    (∀ p, fs.kind p = FKind.file → tryCandidate fs p = some p) ∧
      (∀ p, fs.kind p = FKind.dir →
        tryCandidate fs p =
          (if fs.kind (joinPath p "model.pkl") ≠ FKind.absent then some (joinPath p "model.pkl")
           else if fs.kind (joinPath p "MLmodel") ≠ FKind.absent then some p
           else none)) ∧
      (∀ r, find_model_file fs = .ok r →
        ∃ i, ∃ h : i < MODEL_PATHS.length,
          tryCandidate fs (MODEL_PATHS.get ⟨i, h⟩) = some r ∧
          ∀ j (hj : j < MODEL_PATHS.length), j < i →
            tryCandidate fs (MODEL_PATHS.get ⟨j, hj⟩) = none) ∧
      ((∀ p ∈ MODEL_PATHS, tryCandidate fs p = none) →
        find_model_file fs = .error noModelFoundMsg ∧
          ∀ p ∈ MODEL_PATHS, containsSub p noModelFoundMsg) := by
  refine ⟨?_, ?_, ?_, ?_⟩
  · intro p hp
    simp [tryCandidate, hp]
  · intro p hp
    simp [tryCandidate, hp]
  · intro r h
    exact findIn_ok fs MODEL_PATHS r h
  · intro h
    refine ⟨findIn_error fs MODEL_PATHS h, ?_⟩
    intro p hp
    have hmem : p = "/app/model/model.pkl" ∨ p = "/app/model" ∨ p = "/app/mlruns" := by
      simpa [ MODEL_PATHS] using hp
    rcases hmem with rfl | rfl | rfl
    · exact ⟨"Aucun modèle trouvé dans: [" ++ sq,
        sq ++ ", " ++ sq ++ "/app/model" ++ sq ++ ", " ++ sq ++ "/app/mlruns" ++ sq ++ "]",
        by decide⟩
    · exact ⟨"Aucun modèle trouvé dans: [" ++ sq,
        "/model.pkl" ++ sq ++ ", " ++ sq ++ "/app/model" ++ sq ++ ", " ++ sq ++
          "/app/mlruns" ++ sq ++ "]",
        by decide⟩
    · exact ⟨"Aucun modèle trouvé dans: [" ++ sq ++ "/app/model/model.pkl" ++ sq ++ ", " ++
          sq ++ "/app/model" ++ sq ++ ", " ++ sq,
        sq ++ "]",
        by decide⟩

/-- Concrete witness for C4: an environment with no candidate at all makes
find_model_file fail with the message enumerating the three locations. -/
theorem find_model_file_priority_scan_witness :
    (∀ p ∈ MODEL_PATHS, tryCandidate fsEmpty p = none) ∧
      (find_model_file fsEmpty = .error noModelFoundMsg ∧
        ∀ p ∈ MODEL_PATHS, containsSub p noModelFoundMsg) :=
  ⟨by decide, (find_model_file_priority_scan fsEmpty).2.2.2 (by decide)⟩

/-! ### Lemmas about the strategy chain (load_model_from_file) -/

theorem joinSep_mem (sep : String) :
    ∀ (l : List String) (e : String), e ∈ l → ∃ a b, joinSep sep l = a ++ e ++ b := by
  intro l
  induction l with
  | nil => intro e he; simp at he
  | cons x xs ih =>
      intro e he
      rcases List.mem_cons.mp he with rfl | hmem
      · cases xs with
        | nil => exact ⟨"", "", by simp [joinSep]⟩
        | cons y ys =>
            refine ⟨"", sep ++ joinSep sep (y :: ys), ?_⟩
            show e ++ sep ++ joinSep sep (y :: ys) = "" ++ e ++ (sep ++ joinSep sep (y :: ys))
            simp [String.append_assoc]
      · cases xs with
        | nil => simp at hmem
        | cons y ys =>
            obtain ⟨a, b, hab⟩ := ih e hmem
            refine ⟨x ++ sep ++ a, b, ?_⟩
            show x ++ sep ++ joinSep sep (y :: ys) = x ++ sep ++ a ++ e ++ b
            simp [hab, String.append_assoc]

theorem containsSub_of_mem_joinSep (pre sep : String) (l : List String) (e : String)
    (he : e ∈ l) : containsSub e (pre ++ joinSep sep l) := by
  obtain ⟨a, b, hab⟩ := joinSep_mem sep l e he
  exact ⟨pre ++ a, b, by simp [hab, String.append_assoc]⟩

theorem tryStrategies_facts (fs : FS) (p : String) :
    List.Sublist (tryStrategies fs p).1 [Strategy.mlflow, Strategy.joblib, Strategy.pickle] ∧
      ((tryStrategies fs p).2.2 = none →
        (tryStrategies fs p).2.1.length = (tryStrategies fs p).1.length) := by
  unfold tryStrategies
  cases h1 : mlflowCond fs p with
  | true =>
      rcases hm : fs.mlflowLoad (mlflowLoadPath fs p) with e1 | m1
      · simp only [h1, if_true, hm]
        cases hf : decide (fs.kind p = FKind.file) with
        | false =>
            have hf' : ¬ fs.kind p = FKind.file := of_decide_eq_false hf
            simp only [hf', if_false]
            exact ⟨by decide, fun _ => rfl⟩
        | true =>
            have hf' : fs.kind p = FKind.file := of_decide_eq_true hf
            simp only [hf', if_true, if_pos]
            rcases hj : fs.joblibLoad p with e2 | m2
            · rcases hp2 : fs.pickleLoad p with e3 | m3
              · simp only []
                exact ⟨by decide, fun _ => rfl⟩
              · simp only []
                exact ⟨by decide, fun h => by simp at h⟩
            · simp only []
              exact ⟨by decide, fun h => by simp at h⟩
      · simp only [h1, if_true, hm]
        exact ⟨by decide, fun h => by simp at h⟩
  | false =>
      simp only [h1, Bool.false_eq_true, if_false]
      cases hf : decide (fs.kind p = FKind.file) with
      | false =>
          have hf' : ¬ fs.kind p = FKind.file := of_decide_eq_false hf
          simp only [hf', if_false]
          exact ⟨by decide, fun _ => rfl⟩
      | true =>
          have hf' : fs.kind p = FKind.file := of_decide_eq_true hf
          simp only [hf', if_true]
          rcases hj : fs.joblibLoad p with e2 | m2
          · rcases hp2 : fs.pickleLoad p with e3 | m3
            · simp only []
              exact ⟨by decide, fun _ => rfl⟩
            · simp only []
              exact ⟨by decide, fun h => by simp at h⟩
          · simp only []
            exact ⟨by decide, fun h => by simp at h⟩

/-! ### Claim C3 -/

/-- C3: for every candidate path (resolved by find_model_file, with the
unchanged-path shortcut not taken), the loader attempts the strategies in the
fixed priority order MLflow, joblib, pickle (the attempted sequence is always
a subsequence of that order, skipping only inapplicable strategies),
accumulating one error string per failed attempt; if every attempted strategy
fails, load_model_from_file raises a single aggregate error containing every
accumulated failure reason as a substring; and on a strategy success the
cache records which strategy worked in load_method. -/
theorem load_strategy_priority_aggregate (fs : FS) (st : ModelCache) (p : String)
    (hfind : find_model_file fs = .ok p) (hnew : st.model_path ≠ some p) :
    List.Sublist (tryStrategies fs p).1
        [Strategy.mlflow, Strategy.joblib, Strategy.pickle] ∧
      ((tryStrategies fs p).2.2 = none →
        (tryStrategies fs p).2.1.length = (tryStrategies fs p).1.length ∧
        ∃ msg, (load_model_from_file fs st).2 = .error msg ∧
          ∀ e ∈ (tryStrategies fs p).2.1, containsSub e msg) ∧
      (∀ m strat, (tryStrategies fs p).2.2 = some (m, strat) →
        (load_model_from_file fs st).1.load_method = some strat.methodName) := by
  obtain ⟨hsub, hlen⟩ := tryStrategies_facts fs p
  refine ⟨hsub, ?_, ?_⟩
  · intro hnone
    refine ⟨hlen hnone, ?_⟩
    unfold load_model_from_file
    simp only [hfind]
    rw [if_neg hnew]
    rcases hT : tryStrategies fs p with ⟨t, errs, r⟩
    rw [hT] at hnone
    simp only at hnone
    subst hnone
    refine ⟨loadFailPrefix ++ ("Toutes les méthodes ont échoué: " ++ joinSep " | " errs),
      rfl, ?_⟩
    intro e hemem
    have : e ∈ errs := by simpa using hemem
    have hc := containsSub_of_mem_joinSep
      (loadFailPrefix ++ "Toutes les méthodes ont échoué: ") " | " errs e this
    obtain ⟨a, b, hab⟩ := hc
    exact ⟨a, b, by rw [← String.append_assoc]; exact hab⟩
  · intro m strat hsome
    unfold load_model_from_file
    simp only [hfind]
    rw [if_neg hnew]
    rcases hT : tryStrategies fs p with ⟨t, errs, r⟩
    rw [hT] at hsome
    simp only at hsome
    subst hsome
    rcases ht2 : testModel m with te | u
    · simp only [ht2]
    · simp only [ht2]

/-- Concrete witness for C3: a corrupt regular file at the first candidate
location makes joblib and pickle both fail (MLflow is not applicable), and
the aggregate error contains both failure reasons. -/
theorem load_strategy_priority_aggregate_witness :
    (find_model_file fsCorrupt = .ok "/app/model/model.pkl" ∧
        ModelCache.init.model_path ≠ some "/app/model/model.pkl") ∧
      (List.Sublist (tryStrategies fsCorrupt "/app/model/model.pkl").1
          [Strategy.mlflow, Strategy.joblib, Strategy.pickle] ∧
        ((tryStrategies fsCorrupt "/app/model/model.pkl").2.2 = none →
          (tryStrategies fsCorrupt "/app/model/model.pkl").2.1.length =
              (tryStrategies fsCorrupt "/app/model/model.pkl").1.length ∧
          ∃ msg, (load_model_from_file fsCorrupt ModelCache.init).2 = .error msg ∧
            ∀ e ∈ (tryStrategies fsCorrupt "/app/model/model.pkl").2.1, containsSub e msg) ∧
        (∀ m strat,
          (tryStrategies fsCorrupt "/app/model/model.pkl").2.2 = some (m, strat) →
          (load_model_from_file fsCorrupt ModelCache.init).1.load_method =
            some strat.methodName)) :=
  ⟨⟨rfl, by simp [ModelCache.init]⟩,
    load_strategy_priority_aggregate fsCorrupt ModelCache.init "/app/model/model.pkl"
      rfl (by simp [ModelCache.init])⟩

/-! ### Claim C2 (corrected) -/

/-- C2 counterexample: the claim "if either call raises ... no model is
cached — the cache returns to the empty state, so a later get() re-resolves"
is false on the code.  In `fsBroken` the artifact loads via joblib but its
predict raises on the sample row: the resolution does fail with the wrapped
test error, yet the broken model and its path stay cached
(model = some brokenModel, not none), and a later get() returns the cached
broken model instantly instead of re-resolving.  Moreover no shape check is
performed: in `fsShape` a model whose predict_proba returns an empty row — a
shape inconsistent with a binary classifier — passes the smoke test and the
resolution succeeds. -/
theorem smoke_test_failure_cex :
    (load_model_from_file fsBroken ModelCache.init).2 =
        .error "Impossible de charger le modèle: boom" ∧
      (load_model_from_file fsBroken ModelCache.init).1.model = some brokenModel ∧
      (load_model_from_file fsBroken ModelCache.init).1.model_path =
        some "/app/model/model.pkl" ∧
      get_model fsBroken (load_model_from_file fsBroken ModelCache.init).1 =
        ((load_model_from_file fsBroken ModelCache.init).1,
          .ok (some brokenModel, "local-docker")) ∧
      (load_model_from_file fsShape ModelCache.init).2 = .ok (some shapeModel) :=
  ⟨rfl, rfl, rfl, rfl, rfl⟩

/-- C2 (amended): after loading a candidate artifact, the resolver invokes
predict and predict-probability on one fixed sample row; if either call
raises, the whole resolution fails with the wrapped error — but the freshly
loaded model, its path and its load method remain cached (the assignments
precede the smoke test and are not rolled back), so a later get() returns the
cached failed model without re-resolving; and no shape check is performed on
the calls' return values. -/
theorem smoke_test_failure_keeps_model_cached (fs : FS) (st : ModelCache) (p : String)
    (m : MLModel) (strat : Strategy) (e : String)
    (hfind : find_model_file fs = .ok p)
    (hnew : st.model_path ≠ some p)
    (hload : (tryStrategies fs p).2.2 = some (m, strat))
    (htest : testModel m = .error e) :
    load_model_from_file fs st =
        ({ st with model := some m, load_method := some strat.methodName, model_path := some p },
          .error (loadFailPrefix ++ e)) ∧
      get_model fs
          { st with model := some m, load_method := some strat.methodName, model_path := some p } =
        ({ st with model := some m, load_method := some strat.methodName, model_path := some p },
          .ok (some m, st.model_version)) := by
  constructor
  · unfold load_model_from_file
    simp only [hfind]
    rw [if_neg hnew]
    rcases hT : tryStrategies fs p with ⟨t, errs, r⟩
    rw [hT] at hload
    simp only at hload
    subst hload
    simp only [htest]
  · unfold get_model
    simp only []

/-- Concrete witness for the amended C2, instantiated in `fsBroken`. -/
theorem smoke_test_failure_keeps_model_cached_witness :
    (find_model_file fsBroken = .ok "/app/model/model.pkl" ∧
        ModelCache.init.model_path ≠ some "/app/model/model.pkl" ∧
        (tryStrategies fsBroken "/app/model/model.pkl").2.2 =
          some (brokenModel, Strategy.joblib) ∧
        testModel brokenModel = .error "boom") ∧
      (load_model_from_file fsBroken ModelCache.init =
          ({ ModelCache.init with model := some brokenModel, load_method := some Strategy.joblib.methodName, model_path := some "/app/model/model.pkl" },
            .error (loadFailPrefix ++ "boom")) ∧
        get_model fsBroken
            { ModelCache.init with model := some brokenModel, load_method := some Strategy.joblib.methodName, model_path := some "/app/model/model.pkl" } =
          ({ ModelCache.init with model := some brokenModel, load_method := some Strategy.joblib.methodName, model_path := some "/app/model/model.pkl" },
            .ok (some brokenModel, ModelCache.init.model_version))) :=
  ⟨⟨rfl, by simp [ModelCache.init], rfl, rfl⟩,
    smoke_test_failure_keeps_model_cached fsBroken ModelCache.init "/app/model/model.pkl"
      brokenModel Strategy.joblib "boom" rfl (by simp [ModelCache.init]) rfl rfl⟩

/-! ### Claim C10 -/

theorem load_preserves_version (fs : FS) (st : ModelCache) :
    (load_model_from_file fs st).1.model_version = st.model_version := by
  unfold load_model_from_file
  rcases hf : find_model_file fs with e | p
  · rfl
  · simp only []
    by_cases hp : st.model_path = some p
    · rw [if_pos hp]
    · rw [if_neg hp]
      rcases hT : tryStrategies fs p with ⟨t, errs, r⟩
      rcases r with _ | ⟨m, strat⟩
      · rfl
      · rcases ht : testModel m with te | u <;> simp only [ht]

theorem get_preserves_version (fs : FS) (st : ModelCache) :
    (get_model fs st).1.model_version = st.model_version := by
  unfold get_model
  rcases hm : st.model with _ | m
  · rcases hl : load_model_from_file fs st with ⟨st1, r⟩
    have hv : st1.model_version = st.model_version := by
      have := load_preserves_version fs st
      rw [hl] at this
      exact this
    rcases r with e | mo <;> simp only [] <;> exact hv
  · rfl

theorem applyOp_preserves_version (st : ModelCache) (op : CacheOp) :
    (applyOp st op).model_version = st.model_version := by
  rcases op with fs | fs | fs
  · exact get_preserves_version fs st
  · exact load_preserves_version fs st
  · exact get_preserves_version fs { st with model := none, model_path := none }

theorem get_model_version_of_ok (fs : FS) (st st' : ModelCache) (r : Option MLModel)
    (v : String) (h : get_model fs st = (st', .ok (r, v))) : v = st.model_version := by
  unfold get_model at h
  rcases hm : st.model with _ | m
  · rw [hm] at h
    rcases hl : load_model_from_file fs st with ⟨st1, res⟩
    rw [hl] at h
    have hv : st1.model_version = st.model_version := by
      have := load_preserves_version fs st
      rw [hl] at this
      exact this
    rcases res with e | mo
    · simp at h
    · simp only [Prod.mk.injEq, Except.ok.injEq] at h
      obtain ⟨h1, h2, h3⟩ := h
      rw [← h3]
      exact hv
  · rw [hm] at h
    simp only [Prod.mk.injEq, Except.ok.injEq] at h
    exact h.2.2.symm

/-- C10: the model version reported by the cache is the constant
"local-docker" after every sequence of load, get and reload operations from a
fresh cache, and any successful get() from such a state surfaces exactly that
constant as the version — no operation ever assigns a different version. -/
theorem model_version_always_local_docker (ops : List CacheOp) :
    (runOps ops).model_version = "local-docker" ∧
      ∀ (fs : FS) (r : Option MLModel) (v : String) (st' : ModelCache),
        get_model fs (runOps ops) = (st', .ok (r, v)) → v = "local-docker" := by
  have hrun : (runOps ops).model_version = "local-docker" := by
    suffices h : ∀ st, (ops.foldl applyOp st).model_version = st.model_version by
      simpa [runOps, ModelCache.init] using h ModelCache.init
    induction ops with
    | nil => intro st; rfl
    | cons op ops ih =>
        intro st
        rw [List.foldl_cons, ih, applyOp_preserves_version]
  refine ⟨hrun, ?_⟩
  intro fs r v st' h
  rw [get_model_version_of_ok fs (runOps ops) st' r v h, hrun]

/-- Concrete witness for C10: the empty operation sequence plus a successful
get() in the `fsOk` environment both report "local-docker". -/
theorem model_version_always_local_docker_witness :
    get_model fsOk (runOps []) = (stOk, .ok (some goodModel, "local-docker")) ∧
      "local-docker" = "local-docker" :=
  ⟨rfl, (model_version_always_local_docker []).2 fsOk (some goodModel) "local-docker" stOk rfl⟩

/-! ### Claim C8 -/

theorem predictRows_ok (m : MLModel) :
    ∀ rows : List Row, (∀ r ∈ rows, ∃ res, make_prediction m r = .ok res) →
      ∃ results, predictRows m rows = .ok results ∧ results.length = rows.length ∧
        ∀ i : Nat, results.get? i =
          (rows.get? i).bind (fun r => (make_prediction m r).toOption) := by
  intro rows
  induction rows with
  | nil =>
      intro _
      exact ⟨[], rfl, rfl, fun i => by cases i <;> rfl⟩
  | cons r rows ih =>
      intro h
      obtain ⟨res, hres⟩ := h r (by simp)
      obtain ⟨results, hrows, hlen, hidx⟩ := ih (fun q hq => h q (List.mem_cons_of_mem _ hq))
      refine ⟨res :: results, ?_, by simp [hlen], ?_⟩
      · simp [predictRows, hres, hrows]
      · intro i
        cases i with
        | zero => simp [hres, Except.toOption]
        | succ i0 => simpa using hidx i0

/-- C8: for every list of n applications on which the model serves
successfully, the batch endpoint returns a response holding exactly n per-row
predictions, in the same order as the input list (the i-th prediction is the
prediction of the i-th application), and total_processed equals n. -/
theorem predict_batch_count_and_order (fs : FS) (st : ModelCache) (apps : List Row)
    (st' : ModelCache) (m : MLModel) (v : String)
    (hget : get_model fs st = (st', .ok (some m, v)))
    (hok : ∀ r ∈ apps, ∃ res, make_prediction m r = .ok res) :
    ∃ results, predict_batch fs st apps = (st', .ok ⟨results, apps.length, v⟩) ∧
      results.length = apps.length ∧
      ∀ i : Nat, results.get? i =
        (apps.get? i).bind (fun r => (make_prediction m r).toOption) := by
  obtain ⟨results, hrows, hlen, hidx⟩ := predictRows_ok m apps hok
  refine ⟨results, ?_, hlen, hidx⟩
  unfold predict_batch
  rw [hget]
  simp [hrows, hlen]

theorem make_prediction_goodModel (r : Row) :
    make_prediction goodModel r = .ok ⟨1, 7/10, 3/10, "LOW"⟩ := by
  simp [make_prediction, goodModel, calculate_risk_level, predFailPrefix]

/-- Concrete witness for C8: three applications served by `goodModel` give
exactly three predictions in order with total_processed = 3. -/
theorem predict_batch_count_and_order_witness :
    (get_model fsOk ModelCache.init = (stOk, .ok (some goodModel, "local-docker")) ∧
        ∀ r ∈ [sampleRow, sampleRow, sampleRow],
          ∃ res, make_prediction goodModel r = .ok res) ∧
      ∃ results,
        predict_batch fsOk ModelCache.init [sampleRow, sampleRow, sampleRow] =
            (stOk, .ok ⟨results, 3, "local-docker"⟩) ∧
          results.length = 3 ∧
          ∀ i : Nat, results.get? i =
            ([sampleRow, sampleRow, sampleRow].get? i).bind
              (fun r => (make_prediction goodModel r).toOption) :=
  ⟨⟨rfl, fun r _ => ⟨⟨1, 7/10, 3/10, "LOW"⟩, make_prediction_goodModel r⟩⟩,
    predict_batch_count_and_order fsOk ModelCache.init [sampleRow, sampleRow, sampleRow]
      stOk goodModel "local-docker" rfl
      (fun r _ => ⟨⟨1, 7/10, 3/10, "LOW"⟩, make_prediction_goodModel r⟩)⟩

end CreditScore
